import Mathlib

/-!
# OctoCropper — region geometry and interaction engine, shallow embedding

A shallow embedding in Lean of the region/part data model and the operations
of the OctoCropper editor (`src/types.ts`, `src/App.tsx`): vertex insertion
and deletion, modal editing-mode toggles, region merging, hit classification,
body drag with bounds rejection, vertex drag, the 8-handle rectangle resize,
and the rasterizer's bounding-box / artifact-naming logic.

Modelling conventions:
* JavaScript numbers are modelled as `ℚ` (the embedded code applies only
  field operations, `min`/`max`/`abs`, and comparisons to them).
* `Math.hypot dx dy < t` is modelled as `dx^2 + dy^2 < t^2`, which agrees
  with the source for `t > 0` (hot-zone thresholds are `HANDLE_SIZE / zoom`
  with `zoom` clamped into `[0.1, 10]`, hence positive).
* `Array.prototype.splice(k, 0, a)` is modelled by `spliceInsert` (insertion
  clamped to the array length) and `splice(k, 1)` by `List.eraseIdx`.
* External collaborators (canvas contexts, image decoding, `Date.now()` id
  generation, pixel data) are modelled as parameters; only the geometric and
  naming behaviour is embedded.
-/

namespace OctoCropper

/-- `Point {x, y}` from `src/types.ts`. -/
structure Point where
  x : ℚ
  y : ℚ
deriving DecidableEq, Repr

/-- `Part = RectPart | PolyPart` from `src/types.ts`. -/
inductive Part where
  | rect (x y w h : ℚ)
  | poly (points : List Point)
deriving DecidableEq, Repr

/-- `Region {id, parts}` from `src/types.ts` (`id : number`, time-based). -/
structure Region where
  id : ℕ
  parts : List Part
deriving DecidableEq, Repr

/-- `const HANDLE_SIZE = 12` (`App.tsx` line 8). -/
def HANDLE_SIZE : ℚ := 12

/-- `Array.prototype.splice(k, 0, a)`: insert `a` at index `k`; an index past
the end appends (JS clamps the start index to the array length). -/
def spliceInsert {α : Type*} (k : ℕ) (a : α) (l : List α) : List α :=
  l.take k ++ a :: l.drop k

/-- The four corners of a `RectPart` in the order `[nw, ne, se, sw]`, as
materialized by `addPointToPolygon` (`App.tsx` 375–380). -/
def rectCorners (x y w h : ℚ) : List Point :=
  [⟨x, y⟩, ⟨x + w, y⟩, ⟨x + w, y + h⟩, ⟨x, y + h⟩]

/-- Number of vertices of a part (a rectangle has its 4 implicit corners). -/
def Part.numPoints : Part → ℕ
  | .rect _ _ _ _ => 4
  | .poly pts => pts.length

/-- Vertex list of a part (the 4 corners for a rectangle). -/
def Part.pointList : Part → List Point
  | .rect x y w h => rectCorners x y w h
  | .poly pts => pts

/-- Vertex insertion performed by `addPointToPolygon` (`App.tsx` 373–385):
a rectangle is reified into a polygon with corners `[nw, ne, se, sw]` and the
new point spliced in at `segmentIndex + 1`; a polygon receives the new point
directly at `segmentIndex + 1`. -/
def insertVertex (part : Part) (segmentIndex : ℕ) (newPoint : Point) : Part :=
  match part with
  | .rect x y w h =>
      .poly (spliceInsert (segmentIndex + 1) newPoint (rectCorners x y w h))
  | .poly pts => .poly (spliceInsert (segmentIndex + 1) newPoint pts)

/-- Vertex deletion performed in delete-point mode (`App.tsx` 494–498): the
vertex is spliced out only when the polygon currently has more than 3 points;
otherwise the part is left unchanged. -/
def deleteVertex (part : Part) (vertexIndex : ℕ) : Part :=
  match part with
  | .poly pts =>
      if 3 < pts.length then .poly (pts.eraseIdx vertexIndex) else .poly pts
  | p => p

/-- The modal editing state of the editor: the four boolean mode flags, the
multi-select set and the pointer-cursor string (`App.tsx` 79–84). -/
structure EditorState where
  isSelectMode : Bool
  isWaitingForPointClick : Bool
  isDeletePointMode : Bool
  isDeleteRegionMode : Bool
  multiSelectRegions : Finset ℕ
  cursor : String
deriving DecidableEq

/-- `toggleSelectMode` (`App.tsx` 261–267): flips select mode, cancels
add-point mode (which resets the cursor), exits both delete modes, and clears
the multi-select set. -/
def toggleSelectMode (s : EditorState) : EditorState where
  isSelectMode := !s.isSelectMode
  isWaitingForPointClick := false
  isDeletePointMode := false
  isDeleteRegionMode := false
  multiSelectRegions := ∅
  cursor := if s.isWaitingForPointClick then "default" else s.cursor

/-- `startAddPointMode` (`App.tsx` 269–280): a second press cancels the
pending point click; otherwise it enters add-point mode, exits every other
mode and clears the multi-select set. -/
def startAddPointMode (s : EditorState) : EditorState :=
  if s.isWaitingForPointClick then
    { s with isWaitingForPointClick := false, cursor := "default" }
  else
    { isSelectMode := false
      isWaitingForPointClick := true
      isDeletePointMode := false
      isDeleteRegionMode := false
      multiSelectRegions := ∅
      cursor := "crosshair" }

/-- `toggleDeletePointMode` (`App.tsx` 282–293): when turning on, exits
select mode, add-point mode and delete-region mode. The multi-select set is
not touched. -/
def toggleDeletePointMode (s : EditorState) : EditorState :=
  if !s.isDeletePointMode then
    { s with
      isDeletePointMode := true
      isSelectMode := false
      isWaitingForPointClick := false
      isDeleteRegionMode := false
      cursor := "crosshair" }
  else
    { s with isDeletePointMode := false, cursor := "default" }

/-- `toggleDeleteRegionMode` (`App.tsx` 295–306): when turning on, exits
select mode, add-point mode and delete-point mode. The multi-select set is
not touched. -/
def toggleDeleteRegionMode (s : EditorState) : EditorState :=
  if !s.isDeleteRegionMode then
    { s with
      isDeleteRegionMode := true
      isSelectMode := false
      isWaitingForPointClick := false
      isDeletePointMode := false
      cursor := "pointer" }
  else
    { s with isDeleteRegionMode := false, cursor := "default" }

/-- An editor state in select mode with one region id selected; used to
exercise the mode toggles. -/
def selModeState : EditorState :=
  ⟨true, false, false, false, {1}, "default"⟩

/-- Translate a point by `(dx, dy)`. -/
def translatePoint (dx dy : ℚ) (p : Point) : Point :=
  ⟨p.x + dx, p.y + dy⟩

/-- Translate a part by `(dx, dy)` — the mutation applied to every part of a
region during a body drag (`App.tsx` 587–593). -/
def translatePart (dx dy : ℚ) : Part → Part
  | .rect x y w h => .rect (x + dx) (y + dy) w h
  | .poly pts => .poly (pts.map (translatePoint dx dy))

/-- The per-part bounds check of the body drag (`App.tsx` 571–584): a part
may move iff none of the code's four out-of-bounds conditions fires (for a
polygon, checked for every vertex). -/
def partCanMove (W H dx dy : ℚ) : Part → Bool
  | .rect x y w h =>
      !(decide (x + dx < 0) || decide (y + dy < 0) ||
        decide (x + w + dx > W) || decide (y + h + dy > H))
  | .poly pts =>
      pts.all fun p =>
        !(decide (p.x + dx < 0) || decide (p.y + dy < 0) ||
          decide (p.x + dx > W) || decide (p.y + dy > H))

/-- One pointer-move sample of a body drag (`App.tsx` 565–595): the delta is
the pointer position minus the anchor (`mouseOffset`); if every part passes
the bounds check all parts are translated and the anchor advances to the
pointer position, otherwise both region and anchor are left unchanged. -/
def bodyDragStep (W H : ℚ) (region : Region) (anchor pos : Point) :
    Region × Point :=
  let dx := pos.x - anchor.x
  let dy := pos.y - anchor.y
  if region.parts.all (partCanMove W H dx dy) then
    ({ region with parts := region.parts.map (translatePart dx dy) }, pos)
  else
    (region, anchor)

/-- The claim-level escape condition: translating the part by `(dx, dy)`
would move some of it outside `[0, W] × [0, H]`. -/
def partEscapes (W H dx dy : ℚ) : Part → Prop
  | .rect x y w h => x + dx < 0 ∨ y + dy < 0 ∨ x + w + dx > W ∨ y + h + dy > H
  | .poly pts =>
      ∃ p ∈ pts, p.x + dx < 0 ∨ p.y + dy < 0 ∨ p.x + dx > W ∨ p.y + dy > H

/-- Total number of parts over a region collection. -/
def totalParts (rs : List Region) : ℕ :=
  (rs.map fun r => r.parts.length).sum

/-- `mergeSelectedRegions` (`App.tsx` 391–406): a no-op when fewer than 2 ids
are selected; otherwise the collection is partitioned in one pass into the
selected regions (in order) and the rest, a fresh-id region holding the
concatenation of the selected regions' parts is appended after the remaining
regions, and the selection is cleared. `fresh` stands for the `Date.now()`
id. -/
def mergeSelectedRegions (fresh : ℕ) (sel : Finset ℕ) (rs : List Region) :
    List Region × Finset ℕ :=
  if sel.card < 2 then (rs, sel)
  else
    (rs.filter (fun r => decide (r.id ∉ sel)) ++
      [⟨fresh, (rs.filter fun r => decide (r.id ∈ sel)).flatMap Region.parts⟩],
     ∅)

/-- A two-region collection used to exercise `mergeSelectedRegions`. -/
def mergeTestRegions : List Region :=
  [⟨1, [Part.rect 0 0 1 1]⟩, ⟨2, [Part.rect 2 2 1 1]⟩]

/-- `DragMode` from `src/types.ts`; the `null` case is modelled with
`Option DragMode` where it occurs. -/
inductive DragMode where
  | body
  | vertex
  | n
  | e
  | s
  | w
  | nw
  | ne
  | se
  | sw
deriving DecidableEq, Repr

/-- `clampX` / `clampY` (`App.tsx` 551–552): clamp a coordinate into
`[0, limit]`. -/
def clampCoord (limit v : ℚ) : ℚ :=
  max 0 (min v limit)

/-- Rectangle geometry `{x, y, w, h}` of a `RectPart` under mutation. -/
structure RectBox where
  x : ℚ
  y : ℚ
  w : ℚ
  h : ℚ
deriving DecidableEq, Repr

/-- The 8-way resize switch (`App.tsx` 603–612): each handle moves its
edge(s) to the pointer position clamped into image bounds; a drag mode that
is not one of the 8 handles leaves `{x, y, w, h}` unchanged (the switch has
no matching case). -/
def resizeRaw (m : DragMode) (W H : ℚ) (old : RectBox) (pos : Point) :
    RectBox :=
  match m with
  | .n => ⟨old.x, clampCoord H pos.y, old.w, old.y + old.h - clampCoord H pos.y⟩
  | .e => ⟨old.x, old.y, clampCoord W pos.x - old.x, old.h⟩
  | .s => ⟨old.x, old.y, old.w, clampCoord H pos.y - old.y⟩
  | .w => ⟨clampCoord W pos.x, old.y, old.x + old.w - clampCoord W pos.x, old.h⟩
  | .nw => ⟨clampCoord W pos.x, clampCoord H pos.y,
      old.x + old.w - clampCoord W pos.x, old.y + old.h - clampCoord H pos.y⟩
  | .ne => ⟨old.x, clampCoord H pos.y, clampCoord W pos.x - old.x,
      old.y + old.h - clampCoord H pos.y⟩
  | .se => ⟨old.x, old.y, clampCoord W pos.x - old.x, clampCoord H pos.y - old.y⟩
  | .sw => ⟨clampCoord W pos.x, old.y, old.x + old.w - clampCoord W pos.x,
      clampCoord H pos.y - old.y⟩
  | _ => old

/-- The minimum-width clamp (`App.tsx` 613–616): if the recomputed width is
below the minimum it becomes exactly the minimum, with `x` repositioned only
for the `w`/`nw`/`sw` handles. -/
def applyMinW (m : DragMode) (minSize : ℚ) (old r : RectBox) : RectBox :=
  if r.w < minSize then
    ⟨if m = .w ∨ m = .nw ∨ m = .sw then old.x + old.w - minSize else r.x,
     r.y, minSize, r.h⟩
  else r

/-- The minimum-height clamp (`App.tsx` 617–620): if the recomputed height is
below the minimum it becomes exactly the minimum, with `y` repositioned only
for the `n`/`nw`/`ne` handles. -/
def applyMinH (m : DragMode) (minSize : ℚ) (old r : RectBox) : RectBox :=
  if r.h < minSize then
    ⟨r.x,
     if m = .n ∨ m = .nw ∨ m = .ne then old.y + old.h - minSize else r.y,
     r.w, minSize⟩
  else r

/-- One pointer-move sample of a rectangle resize (`App.tsx` 600–621): the
8-way recomputation followed by the two minimum-size clamps, with minimum
`HANDLE_SIZE / zoom`. -/
def resizeRect (m : DragMode) (W H zoom : ℚ) (old : RectBox) (pos : Point) :
    RectBox :=
  applyMinH m (HANDLE_SIZE / zoom) old
    (applyMinW m (HANDLE_SIZE / zoom) old (resizeRaw m W H old pos))

/-- A point lies within `[0, W] × [0, H]`. -/
def pointInBounds (W H : ℚ) (p : Point) : Prop :=
  0 ≤ p.x ∧ p.x ≤ W ∧ 0 ≤ p.y ∧ p.y ≤ H

/-- A part lies within `[0, W] × [0, H]`. -/
def partInBounds (W H : ℚ) : Part → Prop
  | .rect x y w h => 0 ≤ x ∧ 0 ≤ y ∧ x + w ≤ W ∧ y + h ≤ H
  | .poly pts => ∀ p ∈ pts, pointInBounds W H p

/-- A rectangle `{x, y, w, h}` lies within `[0, W] × [0, H]`. -/
def boxInBounds (W H : ℚ) (r : RectBox) : Prop :=
  0 ≤ r.x ∧ 0 ≤ r.y ∧ r.x + r.w ≤ W ∧ r.y + r.h ≤ H

/-- One pointer-move sample of a polygon-vertex drag (`App.tsx` 597–599):
the dragged vertex is set to the pointer position clamped into bounds. -/
def vertexDragStep (W H : ℚ) (pts : List Point) (k : ℕ) (pos : Point) :
    List Point :=
  pts.set k ⟨clampCoord W pos.x, clampCoord H pos.y⟩

/-- `defaultSize` of `addRegion` (`App.tsx` 242): 25% of the shorter image
dimension. -/
def defaultRegionSize (W H : ℚ) : ℚ :=
  min W H * (1 / 4)

/-- The single centered square part of a newly created region (`App.tsx`
240–254). -/
def newRegionPart (W H : ℚ) : Part :=
  .rect (W / 2 - defaultRegionSize W H / 2) (H / 2 - defaultRegionSize W H / 2)
    (defaultRegionSize W H) (defaultRegionSize W H)

/-- The `minX` candidates a part contributes to its region's bounding box
(`App.tsx` 679–691): `x` for a rectangle, every vertex `x` for a polygon. -/
def partLoX : Part → List ℚ
  | .rect x _ _ _ => [x]
  | .poly pts => pts.map Point.x

/-- The `maxX` candidates: `x + w` for a rectangle, every vertex `x` for a
polygon. -/
def partHiX : Part → List ℚ
  | .rect x _ w _ => [x + w]
  | .poly pts => pts.map Point.x

/-- The `minY` candidates: `y` for a rectangle, every vertex `y` for a
polygon. -/
def partLoY : Part → List ℚ
  | .rect _ y _ _ => [y]
  | .poly pts => pts.map Point.y

/-- The `maxY` candidates: `y + h` for a rectangle, every vertex `y` for a
polygon. -/
def partHiY : Part → List ℚ
  | .rect _ y _ h => [y + h]
  | .poly pts => pts.map Point.y

/-- The axis-aligned bounding box `(minX, minY, maxX, maxY)` of a region
(`App.tsx` 678–691). `none` models the no-candidates case (the JS min/max
folds stay at `±Infinity`, making `w ≤ 0` hold, so such a region is
skipped). -/
def regionBox (r : Region) : Option (ℚ × ℚ × ℚ × ℚ) :=
  match (r.parts.flatMap partLoX).min?, (r.parts.flatMap partLoY).min?,
      (r.parts.flatMap partHiX).max?, (r.parts.flatMap partHiY).max? with
  | some a, some b, some c, some d => some (a, b, c, d)
  | _, _, _, _ => none

/-- Whether `processRegions` keeps a region: its bounding box must have
positive width and height (`App.tsx` 693–695 skips `w <= 0 || h <= 0`). -/
def regionKept (r : Region) : Bool :=
  match regionBox r with
  | none => false
  | some (minX, minY, maxX, maxY) =>
      decide (0 < maxX - minX) && decide (0 < maxY - minY)

/-- Artifact name for the region at 0-based collection index `idx`
(`App.tsx` 719). -/
def artifactName (base : String) (idx : ℕ) : String :=
  base ++ "_region_" ++ toString (idx + 1) ++ ".png"

/-- The indexed collection loop of `processRegions` (`App.tsx` 677–722),
reduced to the artifact names it pushes: a kept region at index `i`
contributes `artifactName base i`, a skipped one contributes nothing. -/
def processGo (base : String) : ℕ → List Region → List String
  | _, [] => []
  | i, r :: rest =>
      if regionKept r then artifactName base i :: processGo base (i + 1) rest
      else processGo base (i + 1) rest

/-- The artifact-name list produced by one `processRegions` run. -/
def processRegions (base : String) (rs : List Region) : List String :=
  processGo base 0 rs

/-- The effect of one `processRegions` invocation on the processed-image
list: with no regions the guard returns early and the previous list is kept,
otherwise `setProcessedImages(results)` replaces it wholesale
(`App.tsx` 672, 723). -/
def processRegionsRun (prev : List String) (base : String)
    (rs : List Region) : List String :=
  if rs.isEmpty then prev else processRegions base rs

/-- A collection with one normal region and one degenerate (zero-width)
region, used to exercise `processRegions`. -/
def procTestRegions : List Region :=
  [⟨1, [Part.rect 0 0 10 10]⟩, ⟨2, [Part.rect 5 5 0 3]⟩]

/-- The four mode flags read by `getHitRegion` (`App.tsx` 418–460). -/
structure ModeFlags where
  isSelectMode : Bool
  isWaitingForPointClick : Bool
  isDeletePointMode : Bool
  isDeleteRegionMode : Bool
deriving DecidableEq, Repr

/-- `HitResult` from `src/types.ts`: `null` fields are `Option`s and the
`-1` index sentinels are kept as integers, as in the source. -/
structure HitResult where
  region : Option Region
  part : Option Part
  partIndex : ℤ
  vertex : Option Point
  vertexIndex : ℤ
  mode : Option DragMode
  cursor : String
deriving DecidableEq, Repr

/-- One edge test of the `pointInPolygon` ray-casting loop (`App.tsx`
34–38): does the edge between `vi` and its predecessor `vj` cross the
horizontal ray from the point? -/
def edgeCrosses (p : Point) (vi vj : Point) : Bool :=
  (decide (vi.y > p.y) != decide (vj.y > p.y)) &&
    decide (p.x < (vj.x - vi.x) * (p.y - vi.y) / (vj.y - vi.y) + vi.x)

/-- `pointInPolygon` (`App.tsx` 31–41): even-odd ray casting over the pairs
`(vs[i], vs[j])` where `j` is the predecessor index, wrapping to the last
vertex at `i = 0`. -/
def pointInPolygon (point : Point) (vs : List Point) : Bool :=
  match vs.getLast? with
  | none => false
  | some last =>
      (vs.zip (last :: vs.dropLast)).foldl
        (fun inside e => if edgeCrosses point e.1 e.2 then !inside else inside)
        false

/-- Normal editing mode: no modal mode active (`App.tsx` 427). -/
def normalEditing (fl : ModeFlags) : Bool :=
  !fl.isSelectMode && !fl.isWaitingForPointClick && !fl.isDeletePointMode &&
    !fl.isDeleteRegionMode

/-- The 8 rectangle handle hot-zone tests in source order (`App.tsx`
429–436), each a square of half-side `h2` centered on a corner or edge
midpoint. -/
def rectHandleHit (h2 : ℚ) (pos : Point) (x y w h : ℚ) :
    Option (DragMode × String) :=
  if |pos.x - x| < h2 ∧ |pos.y - y| < h2 then some (.nw, "nwse-resize")
  else if |pos.x - (x + w)| < h2 ∧ |pos.y - y| < h2 then some (.ne, "nesw-resize")
  else if |pos.x - (x + w)| < h2 ∧ |pos.y - (y + h)| < h2 then some (.se, "nwse-resize")
  else if |pos.x - x| < h2 ∧ |pos.y - (y + h)| < h2 then some (.sw, "nesw-resize")
  else if |pos.x - (x + w / 2)| < h2 ∧ |pos.y - y| < h2 then some (.n, "ns-resize")
  else if |pos.x - (x + w)| < h2 ∧ |pos.y - (y + h / 2)| < h2 then some (.e, "ew-resize")
  else if |pos.x - (x + w / 2)| < h2 ∧ |pos.y - (y + h)| < h2 then some (.s, "ns-resize")
  else if |pos.x - x| < h2 ∧ |pos.y - (y + h / 2)| < h2 then some (.w, "ew-resize")
  else none

/-- Cursor reported for a body hit (`App.tsx` 439, 454). -/
def bodyCursor (fl : ModeFlags) : String :=
  if fl.isSelectMode || fl.isDeleteRegionMode then "pointer" else "move"

/-- The polygon vertex loop (`App.tsx` 442–452): the first vertex whose
hot-zone contains the pointer, returned only in delete-point mode or in a
mode that is neither select nor add-point (`Math.hypot` compared squared,
equivalent for a positive threshold). -/
def polyVertexHit (fl : ModeFlags) (h2 : ℚ) (pos : Point)
    (pts : List Point) : Option (ℕ × Point) :=
  if fl.isDeletePointMode || (!fl.isSelectMode && !fl.isWaitingForPointClick) then
    (pts.enum.find? fun kp =>
      decide ((pos.x - kp.2.x) ^ 2 + (pos.y - kp.2.y) ^ 2 < h2 ^ 2)).map
      fun kp => (kp.1, kp.2)
  else none

/-- A feature found within one part: drag mode, cursor and vertex data. -/
structure PartFeature where
  mode : DragMode
  cursor : String
  vertex : Option Point
  vertexIndex : ℤ
deriving DecidableEq, Repr

/-- The per-part scan of `getHitRegion` (`App.tsx` 426–456): rectangle
handles (only in normal editing mode) before strict body interior; polygon
vertex hot-zones (mode-dependent) before `pointInPolygon` containment. -/
def scanPart (fl : ModeFlags) (h2 : ℚ) (pos : Point) :
    Part → Option PartFeature
  | .rect x y w h =>
      match (if normalEditing fl then rectHandleHit h2 pos x y w h else none) with
      | some mc => some ⟨mc.1, mc.2, none, -1⟩
      | none =>
          if pos.x > x ∧ pos.x < x + w ∧ pos.y > y ∧ pos.y < y + h then
            some ⟨.body, bodyCursor fl, none, -1⟩
          else none
  | .poly pts =>
      match polyVertexHit fl h2 pos pts with
      | some kp =>
          some ⟨.vertex, if fl.isDeletePointMode then "crosshair" else "grab",
            some kp.2, (kp.1 : ℤ)⟩
      | none =>
          if pointInPolygon pos pts then some ⟨.body, bodyCursor fl, none, -1⟩
          else none

/-- Scan a region's parts in order, keeping the part index (`App.tsx` 424). -/
def scanParts (fl : ModeFlags) (h2 : ℚ) (pos : Point) :
    ℕ → List Part → Option (ℕ × Part × PartFeature)
  | _, [] => none
  | j, part :: rest =>
      match scanPart fl h2 pos part with
      | some f => some (j, part, f)
      | none => scanParts fl h2 pos (j + 1) rest

/-- Scan one region; a found feature is packaged as the source's
`HitResult`, owning region attached. -/
def scanRegion (fl : ModeFlags) (h2 : ℚ) (pos : Point) (r : Region) :
    Option HitResult :=
  (scanParts fl h2 pos 0 r.parts).map fun jf =>
    ⟨some r, some jf.2.1, (jf.1 : ℤ), jf.2.2.vertex, jf.2.2.vertexIndex,
      some jf.2.2.mode, jf.2.2.cursor⟩

/-- Scan the reversed collection front-to-back (the source iterates
`i = regions.length - 1` down to `0`), first match wins. -/
def scanRegionsRev (fl : ModeFlags) (h2 : ℚ) (pos : Point) :
    List Region → Option HitResult
  | [] => none
  | r :: rest =>
      match scanRegion fl h2 pos r with
      | some hit => some hit
      | none => scanRegionsRev fl h2 pos rest

/-- The no-match result (`App.tsx` 459). -/
def noHit : HitResult :=
  ⟨none, none, -1, none, -1, none, "default"⟩

/-- `getHitRegion` (`App.tsx` 418–460): hot-zone size `HANDLE_SIZE / zoom`,
half-size `h2`; regions scanned back-to-front, parts in order. -/
def getHitRegion (fl : ModeFlags) (zoom : ℚ) (regions : List Region)
    (pos : Point) : HitResult :=
  (scanRegionsRev fl (HANDLE_SIZE / zoom / 2) pos regions.reverse).getD noHit

/-- Body containment as tested by the classifier: strict interior for a
rectangle, ray casting for a polygon. -/
def bodyContains (pos : Point) : Part → Prop
  | .rect x y w h => pos.x > x ∧ pos.x < x + w ∧ pos.y > y ∧ pos.y < y + h
  | .poly pts => pointInPolygon pos pts = true

/-- Two overlapping rectangle regions used to exercise `getHitRegion`. -/
def hitRegionA : Region := ⟨1, [Part.rect 0 0 50 50]⟩

/-- The topmost of the two overlapping test regions. -/
def hitRegionB : Region := ⟨2, [Part.rect 25 25 50 50]⟩

end OctoCropper

namespace OctoCropper

theorem spliceInsert_length {α : Type*} (a : α) (k : ℕ) (l : List α)
    (h : k ≤ l.length) : (spliceInsert k a l).length = l.length + 1 := by
  simp only [spliceInsert, List.length_append, List.length_take, List.length_cons,
    List.length_drop]
  omega

theorem spliceInsert_getElem_self {α : Type*} (a : α) :
    ∀ (k : ℕ) (l : List α), k ≤ l.length → (spliceInsert k a l)[k]? = some a
  | 0, _, _ => by simp [spliceInsert]
  | k + 1, [], h => by simp at h
  | k + 1, x :: xs, h => by
    simpa [spliceInsert] using
      spliceInsert_getElem_self a k xs (Nat.le_of_succ_le_succ h)

theorem spliceInsert_getElem_lt {α : Type*} (a : α) :
    ∀ (k m : ℕ) (l : List α), m < k → k ≤ l.length →
      (spliceInsert k a l)[m]? = l[m]?
  | 0, m, _, hm, _ => absurd hm (Nat.not_lt_zero m)
  | k + 1, _, [], _, hk => by simp at hk
  | k + 1, 0, x :: xs, _, _ => by simp [spliceInsert]
  | k + 1, m + 1, x :: xs, hm, hk => by
    simpa [spliceInsert] using
      spliceInsert_getElem_lt a k m xs (Nat.lt_of_succ_lt_succ hm)
        (Nat.le_of_succ_le_succ hk)

theorem spliceInsert_getElem_gt {α : Type*} (a : α) :
    ∀ (k m : ℕ) (l : List α), k ≤ m → m < l.length →
      (spliceInsert k a l)[m + 1]? = l[m]?
  | 0, m, l, _, _ => by simp [spliceInsert]
  | k + 1, 0, _, hk, _ => absurd hk (Nat.not_succ_le_zero k)
  | _ + 1, _ + 1, [], _, hm => by simp at hm
  | k + 1, m + 1, x :: xs, hk, hm => by
    simpa [spliceInsert] using
      spliceInsert_getElem_gt a k m xs (Nat.le_of_succ_le_succ hk)
        (Nat.lt_of_succ_lt_succ hm)

/-- **C4.** Inserting a vertex after edge `i < 4` of a `RectPart` replaces it
by a `PolyPart` of 5 points: the rectangle's corners in the order
`[nw, ne, se, sw]` with the new point at position `i + 1`; inserting after
segment `j` of a `PolyPart` puts the new point at position `j + 1` with all
other points keeping their order. -/
theorem insertVertex_spec (x y w h : ℚ) (p : Point) (i : ℕ) (hi : i < 4)
    (pts : List Point) (q : Point) (j : ℕ) (hj : j < pts.length) :
    (∃ l, insertVertex (Part.rect x y w h) i p = Part.poly l) ∧
    (insertVertex (Part.rect x y w h) i p).numPoints = 5 ∧
    (insertVertex (Part.rect x y w h) i p).pointList[i + 1]? = some p ∧
    (∀ k, k ≤ i →
      (insertVertex (Part.rect x y w h) i p).pointList[k]? =
        (rectCorners x y w h)[k]?) ∧
    (∀ k, i < k → k < 4 →
      (insertVertex (Part.rect x y w h) i p).pointList[k + 1]? =
        (rectCorners x y w h)[k]?) ∧
    (insertVertex (Part.poly pts) j q).numPoints = pts.length + 1 ∧
    (insertVertex (Part.poly pts) j q).pointList[j + 1]? = some q ∧
    (∀ k, k ≤ j → (insertVertex (Part.poly pts) j q).pointList[k]? = pts[k]?) ∧
    (∀ k, j < k → k < pts.length →
      (insertVertex (Part.poly pts) j q).pointList[k + 1]? = pts[k]?) := by
  have hc : (rectCorners x y w h).length = 4 := rfl
  have hi1 : i + 1 ≤ (rectCorners x y w h).length := by omega
  have hj1 : j + 1 ≤ pts.length := by omega
  refine ⟨⟨_, rfl⟩, ?_, ?_, ?_, ?_, ?_, ?_, ?_, ?_⟩
  · show (spliceInsert (i + 1) p (rectCorners x y w h)).length = 5
    rw [spliceInsert_length p (i + 1) _ hi1, hc]
  · exact spliceInsert_getElem_self p (i + 1) _ hi1
  · intro k hk
    exact spliceInsert_getElem_lt p (i + 1) k _ (by omega) hi1
  · intro k hik hk4
    exact spliceInsert_getElem_gt p (i + 1) k _ (by omega) (by omega)
  · show (spliceInsert (j + 1) q pts).length = pts.length + 1
    exact spliceInsert_length q (j + 1) pts hj1
  · exact spliceInsert_getElem_self q (j + 1) pts hj1
  · intro k hk
    exact spliceInsert_getElem_lt q (j + 1) k pts (by omega) hj1
  · intro k hjk hk
    exact spliceInsert_getElem_gt q (j + 1) k pts (by omega) hk

/-- Witness for C4: concrete insertion into a unit square after edge 1, and
into a triangle after segment 0. -/
theorem insertVertex_spec_witness :
    (∃ l, insertVertex (Part.rect 0 0 1 1) 1 ⟨1, (1:ℚ)/2⟩ = Part.poly l) ∧
    (insertVertex (Part.rect 0 0 1 1) 1 ⟨1, (1:ℚ)/2⟩).numPoints = 5 ∧
    (insertVertex (Part.rect 0 0 1 1) 1 ⟨1, (1:ℚ)/2⟩).pointList[2]? =
      some ⟨1, (1:ℚ)/2⟩ ∧
    (insertVertex (Part.poly [⟨0,0⟩, ⟨2,0⟩, ⟨1,2⟩]) 0 ⟨1,0⟩).numPoints = 3 + 1 := by
  have h := insertVertex_spec 0 0 1 1 ⟨1, (1:ℚ)/2⟩ 1 (by omega)
    [⟨0,0⟩, ⟨2,0⟩, ⟨1,2⟩] ⟨1,0⟩ 0 (by simp)
  exact ⟨h.1, h.2.1, h.2.2.1, h.2.2.2.2.2.1⟩

/-- **C8.** `deleteVertex` removes the targeted vertex only when the polygon
has more than 3 points; on a 3-point polygon it is a no-op, so a polygon with
at least 3 points keeps at least 3 points. -/
theorem deleteVertex_spec (pts : List Point) (k : ℕ) :
    (3 < pts.length →
      deleteVertex (Part.poly pts) k = Part.poly (pts.eraseIdx k)) ∧
    (pts.length = 3 → deleteVertex (Part.poly pts) k = Part.poly pts) ∧
    (3 ≤ pts.length → 3 ≤ (deleteVertex (Part.poly pts) k).numPoints) := by
  refine ⟨fun h => by simp [deleteVertex, h], fun h => by simp [deleteVertex, h], ?_⟩
  intro h3
  by_cases h : 3 < pts.length
  · have hlen : 3 ≤ (pts.eraseIdx k).length := by
      rw [List.length_eraseIdx]
      split <;> omega
    simpa [deleteVertex, h, Part.numPoints] using hlen
  · simpa [deleteVertex, h, Part.numPoints] using h3

/-- Witness for C8: deleting from a square polygon erases the vertex; deleting
from a triangle is a no-op. -/
theorem deleteVertex_spec_witness :
    deleteVertex (Part.poly [⟨0,0⟩, ⟨1,0⟩, ⟨1,1⟩, ⟨0,1⟩]) 1 =
      Part.poly [⟨0,0⟩, ⟨1,1⟩, ⟨0,1⟩] ∧
    deleteVertex (Part.poly [⟨0,0⟩, ⟨2,0⟩, ⟨1,2⟩]) 0 =
      Part.poly [⟨0,0⟩, ⟨2,0⟩, ⟨1,2⟩] ∧
    3 ≤ (deleteVertex (Part.poly [⟨0,0⟩, ⟨2,0⟩, ⟨1,2⟩]) 0).numPoints := by
  refine ⟨?_, (deleteVertex_spec [⟨0,0⟩, ⟨2,0⟩, ⟨1,2⟩] 0).2.1 (by simp),
    (deleteVertex_spec [⟨0,0⟩, ⟨2,0⟩, ⟨1,2⟩] 0).2.2 (by simp)⟩
  have h := (deleteVertex_spec [⟨0,0⟩, ⟨1,0⟩, ⟨1,1⟩, ⟨0,1⟩] 1).1 (by simp)
  simpa using h

theorem partCanMove_iff (W H dx dy : ℚ) (part : Part) :
    partCanMove W H dx dy part = true ↔ ¬ partEscapes W H dx dy part := by
  cases part with
  | rect x y w h =>
    simp only [partCanMove, partEscapes, Bool.not_eq_true', Bool.or_eq_false_iff,
      decide_eq_false_iff_not, not_or]
    tauto
  | poly pts =>
    simp only [partCanMove, partEscapes, List.all_eq_true, Bool.not_eq_true',
      Bool.or_eq_false_iff, decide_eq_false_iff_not]
    constructor
    · rintro hall ⟨p, hp, h | h | h | h⟩
      · exact (hall p hp).1.1.1 h
      · exact (hall p hp).1.1.2 h
      · exact (hall p hp).1.2 h
      · exact (hall p hp).2 h
    · intro hne p hp
      exact ⟨⟨⟨fun h => hne ⟨p, hp, Or.inl h⟩, fun h => hne ⟨p, hp, Or.inr (Or.inl h)⟩⟩,
        fun h => hne ⟨p, hp, Or.inr (Or.inr (Or.inl h))⟩⟩,
        fun h => hne ⟨p, hp, Or.inr (Or.inr (Or.inr h))⟩⟩

/-- **C1.** A body-drag pointer-move sample: if translating any part of the
region by the delta would move it outside `[0, W] × [0, H]`, the region's
geometry is left completely unchanged and the anchor is not advanced;
otherwise every part is translated by exactly the delta and the anchor
advances to the pointer position. -/
theorem bodyDrag_spec (W H : ℚ) (region : Region) (anchor pos : Point) :
    ((∃ part ∈ region.parts,
        partEscapes W H (pos.x - anchor.x) (pos.y - anchor.y) part) →
      bodyDragStep W H region anchor pos = (region, anchor)) ∧
    ((∀ part ∈ region.parts,
        ¬ partEscapes W H (pos.x - anchor.x) (pos.y - anchor.y) part) →
      bodyDragStep W H region anchor pos =
        (⟨region.id,
          region.parts.map (translatePart (pos.x - anchor.x) (pos.y - anchor.y))⟩,
         pos)) := by
  constructor
  · rintro ⟨part, hmem, hesc⟩
    have hfail :
        ¬ region.parts.all (partCanMove W H (pos.x - anchor.x) (pos.y - anchor.y)) = true := by
      intro hall
      exact (partCanMove_iff W H _ _ part).1 (List.all_eq_true.mp hall part hmem) hesc
    simp [bodyDragStep, hfail]
  · intro h
    have hall :
        region.parts.all (partCanMove W H (pos.x - anchor.x) (pos.y - anchor.y)) = true :=
      List.all_eq_true.mpr fun part hp => (partCanMove_iff W H _ _ part).2 (h part hp)
    simp [bodyDragStep, hall]

/-- Witness for C1: on a 100×100 image, dragging the region
`[rect 10 10 20 20]` by `(-20, 0)` is rejected wholesale, while dragging it
by `(5, 5)` translates the part and advances the anchor. -/
theorem bodyDrag_spec_witness :
    bodyDragStep 100 100 ⟨1, [Part.rect 10 10 20 20]⟩ ⟨0, 0⟩ ⟨-20, 0⟩ =
      (⟨1, [Part.rect 10 10 20 20]⟩, ⟨0, 0⟩) ∧
    bodyDragStep 100 100 ⟨1, [Part.rect 10 10 20 20]⟩ ⟨0, 0⟩ ⟨5, 5⟩ =
      (⟨1, [Part.rect 15 15 20 20]⟩, ⟨5, 5⟩) := by
  constructor
  · exact (bodyDrag_spec 100 100 ⟨1, [Part.rect 10 10 20 20]⟩ ⟨0, 0⟩ ⟨-20, 0⟩).1
      ⟨Part.rect 10 10 20 20, by simp, by simp [partEscapes]; norm_num⟩
  · have h := (bodyDrag_spec 100 100 ⟨1, [Part.rect 10 10 20 20]⟩ ⟨0, 0⟩ ⟨5, 5⟩).2 ?_
    · rw [h]
      simp [translatePart]
      norm_num
    · intro part hp
      simp only [List.mem_singleton] at hp
      subst hp
      simp [partEscapes]
      norm_num

theorem length_filter_split {α : Type*} (p : α → Bool) (l : List α) :
    (l.filter p).length + (l.filter fun a => !p a).length = l.length := by
  induction l with
  | nil => rfl
  | cons a rest ih =>
    cases hp : p a <;> simp [List.filter_cons, hp] <;> omega

theorem totalParts_filter_split (p : Region → Bool) (rs : List Region) :
    totalParts (rs.filter p) + totalParts (rs.filter fun r => !p r) =
      totalParts rs := by
  induction rs with
  | nil => rfl
  | cons r rest ih =>
    cases hp : p r <;> simp [totalParts, List.filter_cons, hp] at ih ⊢ <;> omega

theorem length_flatMap_parts (rs : List Region) :
    (rs.flatMap Region.parts).length = totalParts rs := by
  induction rs with
  | nil => rfl
  | cons r rest ih =>
    simp only [List.flatMap_cons, List.length_append, totalParts, List.map_cons,
      List.sum_cons]
    simp only [totalParts] at ih
    omega

theorem card_le_length_filter_mem (sel : Finset ℕ) (l : List ℕ) (hnd : l.Nodup)
    (hsub : ∀ a ∈ sel, a ∈ l) :
    sel.card ≤ (l.filter fun a => decide (a ∈ sel)).length := by
  have hf : (l.filter fun a => decide (a ∈ sel)).Nodup := hnd.filter _
  have hsub2 : sel ⊆ (l.filter fun a => decide (a ∈ sel)).toFinset := by
    intro a ha
    simp only [List.mem_toFinset, List.mem_filter, decide_eq_true_eq]
    exact ⟨hsub a ha, ha⟩
  calc sel.card ≤ (l.filter fun a => decide (a ∈ sel)).toFinset.card :=
        Finset.card_le_card hsub2
    _ = (l.filter fun a => decide (a ∈ sel)).length :=
        List.toFinset_card_of_nodup hf

theorem length_filter_id_mem (sel : Finset ℕ) (rs : List Region) :
    (rs.filter fun r => decide (r.id ∈ sel)).length =
      ((rs.map Region.id).filter fun a => decide (a ∈ sel)).length := by
  induction rs with
  | nil => rfl
  | cons r rest ih =>
    cases h : decide (r.id ∈ sel) <;> simp [List.filter_cons, h, ih]

/-- **C5.** `mergeSelectedRegions`: a no-op when fewer than 2 ids are
selected; with at least 2 selected ids (all present in the collection, whose
ids are pairwise distinct, and with a genuinely fresh id), the selection is
cleared, the total part count is preserved, the selected regions are replaced
by exactly one new region with the fresh id carrying the concatenation of
their parts in collection order, the region count drops by one less than the
number of selected regions, and every selected id disappears from the
collection. -/
theorem mergeSelectedRegions_spec (fresh : ℕ) (sel : Finset ℕ) (rs : List Region) :
    (sel.card < 2 → mergeSelectedRegions fresh sel rs = (rs, sel)) ∧
    (2 ≤ sel.card →
      (mergeSelectedRegions fresh sel rs).2 = ∅ ∧
      totalParts (mergeSelectedRegions fresh sel rs).1 = totalParts rs ∧
      (mergeSelectedRegions fresh sel rs).1.getLast? =
        some ⟨fresh, (rs.filter fun r => decide (r.id ∈ sel)).flatMap Region.parts⟩ ∧
      ((rs.map Region.id).Nodup → (∀ a ∈ sel, a ∈ rs.map Region.id) →
        (mergeSelectedRegions fresh sel rs).1.length +
            (rs.filter fun r => decide (r.id ∈ sel)).length = rs.length + 1 ∧
        2 ≤ (rs.filter fun r => decide (r.id ∈ sel)).length) ∧
      (fresh ∉ rs.map Region.id → (∀ a ∈ sel, a ∈ rs.map Region.id) →
        ∀ a ∈ sel, a ∉ (mergeSelectedRegions fresh sel rs).1.map Region.id)) := by
  constructor
  · intro h
    simp [mergeSelectedRegions, h]
  · intro h2
    have hlt : ¬ sel.card < 2 := not_lt.mpr h2
    simp only [mergeSelectedRegions, if_neg hlt]
    refine ⟨by trivial, ?_, List.getLast?_concat _, fun hnd hsub => ⟨?_, ?_⟩, ?_⟩
    · have hsplit := totalParts_filter_split (fun r => decide (r.id ∈ sel)) rs
      have hnotin :
          (rs.filter fun r => !decide (r.id ∈ sel)) =
            (rs.filter fun r => decide (r.id ∉ sel)) := by
        simp only [decide_not]
      rw [hnotin] at hsplit
      simp only [totalParts, List.map_append, List.sum_append, List.map_cons,
        List.map_nil, List.sum_cons, List.sum_nil]
      rw [length_flatMap_parts]
      simp only [totalParts] at hsplit ⊢
      omega
    · have hsplit := length_filter_split (fun r => decide (r.id ∈ sel)) rs
      have hnotin :
          (rs.filter fun r => !decide (r.id ∈ sel)) =
            (rs.filter fun r => decide (r.id ∉ sel)) := by
        simp only [decide_not]
      rw [hnotin] at hsplit
      simp only [List.length_append, List.length_cons, List.length_nil]
      omega
    · rw [length_filter_id_mem]
      exact le_trans h2 (card_le_length_filter_mem sel (rs.map Region.id) hnd hsub)
    · intro hfresh hsub a ha hmem
      simp only [List.map_append, List.mem_append, List.map_cons, List.map_nil,
        List.mem_cons, List.not_mem_nil, or_false, List.mem_map] at hmem
      rcases hmem with ⟨r, hr, rfl⟩ | rfl
      · have := (List.mem_filter.mp hr).2
        simp only [decide_eq_true_eq] at this
        exact this ha
      · exact hfresh (hsub a ha)

/-- Witness for C5 at a concrete two-region collection with both regions
selected. -/
theorem mergeSelectedRegions_spec_witness :
    (mergeSelectedRegions 9 {1, 2} mergeTestRegions).2 = ∅ ∧
    totalParts (mergeSelectedRegions 9 {1, 2} mergeTestRegions).1 =
      totalParts mergeTestRegions ∧
    (mergeSelectedRegions 9 {1, 2} mergeTestRegions).1.length +
        (mergeTestRegions.filter fun r =>
          decide (r.id ∈ ({1, 2} : Finset ℕ))).length =
      mergeTestRegions.length + 1 ∧
    ∀ a ∈ ({1, 2} : Finset ℕ),
      a ∉ (mergeSelectedRegions 9 {1, 2} mergeTestRegions).1.map Region.id := by
  have h := (mergeSelectedRegions_spec 9 {1, 2} mergeTestRegions).2 (by decide)
  exact ⟨h.1, h.2.1, (h.2.2.2.1 (by decide) (by decide)).1,
    h.2.2.2.2 (by decide) (by decide)⟩

/-- **C10.** When at least 2 ids are selected, the merged region is appended
at the end of the collection (so it is topmost for painting and hit-testing)
and the remaining unselected regions keep their previous relative order at
the front. -/
theorem mergeSelectedRegions_appends (fresh : ℕ) (sel : Finset ℕ)
    (rs : List Region) (h2 : 2 ≤ sel.card) :
    (mergeSelectedRegions fresh sel rs).1.dropLast =
      rs.filter (fun r => decide (r.id ∉ sel)) ∧
    (mergeSelectedRegions fresh sel rs).1.dropLast.Sublist rs ∧
    (∀ r ∈ (mergeSelectedRegions fresh sel rs).1.dropLast, r.id ∉ sel) ∧
    (mergeSelectedRegions fresh sel rs).1.getLast? =
      some ⟨fresh, (rs.filter fun r => decide (r.id ∈ sel)).flatMap Region.parts⟩ := by
  have hlt : ¬ sel.card < 2 := not_lt.mpr h2
  simp only [mergeSelectedRegions, if_neg hlt]
  rw [List.dropLast_concat]
  refine ⟨rfl, List.filter_sublist rs, ?_, List.getLast?_concat _⟩
  intro r hr
  have := (List.mem_filter.mp hr).2
  simpa using this

/-- Witness for C10 at the same concrete collection. -/
theorem mergeSelectedRegions_appends_witness :
    (mergeSelectedRegions 9 {1, 2} mergeTestRegions).1.dropLast =
      mergeTestRegions.filter
        (fun r => decide (r.id ∉ ({1, 2} : Finset ℕ))) ∧
    (mergeSelectedRegions 9 {1, 2} mergeTestRegions).1.getLast? =
      some ⟨9, (mergeTestRegions.filter fun r =>
        decide (r.id ∈ ({1, 2} : Finset ℕ))).flatMap Region.parts⟩ := by
  have h := mergeSelectedRegions_appends 9 {1, 2} mergeTestRegions (by decide)
  exact ⟨h.1, h.2.2.2⟩

/-- **C2, counterexample.** Toggling delete-point mode on from select mode
with region 1 selected activates delete-point mode but leaves the
multi-select set nonempty, refuting the claim that entering any modal mode
clears the multi-select set. -/
theorem toggleDeletePointMode_cex :
    (toggleDeletePointMode selModeState).isDeletePointMode = true ∧
    (toggleDeletePointMode selModeState).multiSelectRegions ≠ (∅ : Finset ℕ) := by
  constructor
  · rfl
  · decide

/-- **C2, amended.** Entering any modal mode (select, add-point, delete-point,
delete-region) deactivates every other modal mode, so at most one mode is
active afterwards; toggling select mode on or entering add-point mode also
clears the multi-select set, while entering delete-point or delete-region
mode leaves the multi-select set unchanged. -/
theorem toggle_modes_exclusive (s : EditorState) :
    (s.isSelectMode = false →
      (toggleSelectMode s).isSelectMode = true ∧
      (toggleSelectMode s).isWaitingForPointClick = false ∧
      (toggleSelectMode s).isDeletePointMode = false ∧
      (toggleSelectMode s).isDeleteRegionMode = false ∧
      (toggleSelectMode s).multiSelectRegions = ∅) ∧
    (s.isWaitingForPointClick = false →
      (startAddPointMode s).isWaitingForPointClick = true ∧
      (startAddPointMode s).isSelectMode = false ∧
      (startAddPointMode s).isDeletePointMode = false ∧
      (startAddPointMode s).isDeleteRegionMode = false ∧
      (startAddPointMode s).multiSelectRegions = ∅) ∧
    (s.isDeletePointMode = false →
      (toggleDeletePointMode s).isDeletePointMode = true ∧
      (toggleDeletePointMode s).isSelectMode = false ∧
      (toggleDeletePointMode s).isWaitingForPointClick = false ∧
      (toggleDeletePointMode s).isDeleteRegionMode = false ∧
      (toggleDeletePointMode s).multiSelectRegions = s.multiSelectRegions) ∧
    (s.isDeleteRegionMode = false →
      (toggleDeleteRegionMode s).isDeleteRegionMode = true ∧
      (toggleDeleteRegionMode s).isSelectMode = false ∧
      (toggleDeleteRegionMode s).isWaitingForPointClick = false ∧
      (toggleDeleteRegionMode s).isDeletePointMode = false ∧
      (toggleDeleteRegionMode s).multiSelectRegions = s.multiSelectRegions) := by
  refine ⟨fun h => ?_, fun h => ?_, fun h => ?_, fun h => ?_⟩
  · simp [toggleSelectMode, h]
  · simp [startAddPointMode, h]
  · simp [toggleDeletePointMode, h]
  · simp [toggleDeleteRegionMode, h]

theorem applyMinH_x (m : DragMode) (minSize : ℚ) (old r : RectBox) :
    (applyMinH m minSize old r).x = r.x := by
  unfold applyMinH
  split <;> rfl

theorem applyMinH_w (m : DragMode) (minSize : ℚ) (old r : RectBox) :
    (applyMinH m minSize old r).w = r.w := by
  unfold applyMinH
  split <;> rfl

theorem applyMinW_y (m : DragMode) (minSize : ℚ) (old r : RectBox) :
    (applyMinW m minSize old r).y = r.y := by
  unfold applyMinW
  split <;> rfl

theorem applyMinW_h (m : DragMode) (minSize : ℚ) (old r : RectBox) :
    (applyMinW m minSize old r).h = r.h := by
  unfold applyMinW
  split <;> rfl

theorem applyMinW_w_ge (m : DragMode) (minSize : ℚ) (old r : RectBox) :
    minSize ≤ (applyMinW m minSize old r).w := by
  unfold applyMinW
  split
  · rfl
  · exact le_of_not_lt (by assumption)

theorem applyMinH_h_ge (m : DragMode) (minSize : ℚ) (old r : RectBox) :
    minSize ≤ (applyMinH m minSize old r).h := by
  unfold applyMinH
  split
  · rfl
  · exact le_of_not_lt (by assumption)

/-- **C6.** Every resize sample ends with width and height at least
`HANDLE_SIZE / zoom`; a recomputed width (height) below the minimum is
clamped to exactly the minimum, with `x` repositioned only for the
`w`/`nw`/`sw` handles and `y` only for the `n`/`nw`/`ne` handles; and the
edge(s) opposite the dragged handle are unchanged (`x+w` for `w`, `x` for
`e`, `y+h` for `n`, `y` for `s`, and the opposite corner for the corner
handles). -/
theorem resizeRect_spec (W H zoom : ℚ) (old : RectBox) (pos : Point) :
    (∀ m : DragMode,
      HANDLE_SIZE / zoom ≤ (resizeRect m W H zoom old pos).w ∧
      HANDLE_SIZE / zoom ≤ (resizeRect m W H zoom old pos).h) ∧
    (∀ m : DragMode,
      ((resizeRaw m W H old pos).w < HANDLE_SIZE / zoom →
        (resizeRect m W H zoom old pos).w = HANDLE_SIZE / zoom) ∧
      ((resizeRaw m W H old pos).h < HANDLE_SIZE / zoom →
        (resizeRect m W H zoom old pos).h = HANDLE_SIZE / zoom)) ∧
    ((resizeRect .n W H zoom old pos).x = old.x ∧
      (resizeRect .n W H zoom old pos).y + (resizeRect .n W H zoom old pos).h =
        old.y + old.h) ∧
    ((resizeRect .s W H zoom old pos).x = old.x ∧
      (resizeRect .s W H zoom old pos).y = old.y) ∧
    ((resizeRect .e W H zoom old pos).x = old.x ∧
      (resizeRect .e W H zoom old pos).y = old.y) ∧
    ((resizeRect .w W H zoom old pos).x + (resizeRect .w W H zoom old pos).w =
        old.x + old.w ∧
      (resizeRect .w W H zoom old pos).y = old.y) ∧
    ((resizeRect .nw W H zoom old pos).x + (resizeRect .nw W H zoom old pos).w =
        old.x + old.w ∧
      (resizeRect .nw W H zoom old pos).y + (resizeRect .nw W H zoom old pos).h =
        old.y + old.h) ∧
    ((resizeRect .ne W H zoom old pos).x = old.x ∧
      (resizeRect .ne W H zoom old pos).y + (resizeRect .ne W H zoom old pos).h =
        old.y + old.h) ∧
    ((resizeRect .se W H zoom old pos).x = old.x ∧
      (resizeRect .se W H zoom old pos).y = old.y) ∧
    ((resizeRect .sw W H zoom old pos).x + (resizeRect .sw W H zoom old pos).w =
        old.x + old.w ∧
      (resizeRect .sw W H zoom old pos).y = old.y) := by
  refine ⟨fun m => ⟨?_, ?_⟩, fun m => ⟨fun hw => ?_, fun hh => ?_⟩,
    ?_, ?_, ?_, ?_, ?_, ?_, ?_, ?_⟩
  · rw [resizeRect, applyMinH_w]
    exact applyMinW_w_ge _ _ _ _
  · rw [resizeRect]
    exact applyMinH_h_ge _ _ _ _
  · rw [resizeRect, applyMinH_w, applyMinW, if_pos hw]
  · have hh2 :
        (applyMinW m (HANDLE_SIZE / zoom) old (resizeRaw m W H old pos)).h <
          HANDLE_SIZE / zoom := by
      rw [applyMinW_h]
      exact hh
    rw [resizeRect, applyMinH, if_pos hh2]
  all_goals constructor <;>
    (simp only [resizeRect, applyMinH, applyMinW, resizeRaw]
     split_ifs <;> simp_all)

/-- Witness for C6: resizing `⟨10, 10, 50, 50⟩` with the `w` handle to
pointer `x = 55` on a 100×100 image at zoom 1 produces a width clamped to
exactly the 12-unit minimum while the right edge stays at 60. -/
theorem resizeRect_spec_witness :
    HANDLE_SIZE / 1 ≤ (resizeRect .w 100 100 1 ⟨10, 10, 50, 50⟩ ⟨55, 80⟩).w ∧
    (resizeRect .w 100 100 1 ⟨10, 10, 50, 50⟩ ⟨55, 80⟩).w = HANDLE_SIZE / 1 ∧
    (resizeRect .w 100 100 1 ⟨10, 10, 50, 50⟩ ⟨55, 80⟩).x +
      (resizeRect .w 100 100 1 ⟨10, 10, 50, 50⟩ ⟨55, 80⟩).w = 10 + 50 := by
  have h := resizeRect_spec 100 100 1 ⟨10, 10, 50, 50⟩ ⟨55, 80⟩
  refine ⟨(h.1 .w).1, (h.2.1 .w).1 ?_, h.2.2.2.2.2.1.1⟩
  norm_num [resizeRaw, clampCoord, HANDLE_SIZE]

/-- **C7, counterexample.** On a 100×100 image at zoom 1, the in-bounds
rectangle `⟨95, 10, 4, 50⟩` resized with the `e` handle to pointer `x = 96`
is clamped to the 12-unit minimum width and ends at `x + w = 107 > 100`: an
interactive mutation of in-bounds geometry can leave the image bounds. -/
theorem resize_escapes_bounds_cex :
    boxInBounds 100 100 ⟨95, 10, 4, 50⟩ ∧
    resizeRect .e 100 100 1 ⟨95, 10, 4, 50⟩ ⟨96, 20⟩ = ⟨95, 10, 12, 50⟩ ∧
    ¬ boxInBounds 100 100 (resizeRect .e 100 100 1 ⟨95, 10, 4, 50⟩ ⟨96, 20⟩) := by
  have hres : resizeRect .e 100 100 1 ⟨95, 10, 4, 50⟩ ⟨96, 20⟩ =
      ⟨95, 10, 12, 50⟩ := by
    norm_num [resizeRect, resizeRaw, applyMinW, applyMinH, clampCoord, HANDLE_SIZE]
    decide
  refine ⟨by norm_num [boxInBounds], hres, ?_⟩
  rw [hres]
  intro hb
  have := hb.2.2.1
  norm_num at this

/-- **C7, amended.** Body drags and polygon-vertex drags preserve the
in-bounds invariant, a newly created region is fully inside bounds by
construction, and the resize recomputation clamps the pointer coordinates
into bounds — but (per the counterexample) the resize minimum-size clamp may
move an edge of an in-bounds rectangle outside the image bounds. -/
theorem mutations_preserve_bounds (W H : ℚ) (region : Region)
    (anchor pos : Point) (pts : List Point) (k : ℕ) :
    ((∀ part ∈ region.parts, partInBounds W H part) →
      ∀ part ∈ (bodyDragStep W H region anchor pos).1.parts,
        partInBounds W H part) ∧
    (0 ≤ W → 0 ≤ H → (∀ p ∈ pts, pointInBounds W H p) →
      ∀ p ∈ vertexDragStep W H pts k pos, pointInBounds W H p) ∧
    (0 ≤ W → 0 ≤ H → partInBounds W H (newRegionPart W H)) ∧
    (0 ≤ W → ∀ v : ℚ, 0 ≤ clampCoord W v ∧ clampCoord W v ≤ W) := by
  refine ⟨?_, ?_, ?_, ?_⟩
  · intro hin
    rw [bodyDragStep]
    cases hall : region.parts.all
        (partCanMove W H (pos.x - anchor.x) (pos.y - anchor.y)) with
    | false =>
      simp only [Bool.false_eq_true, if_false]
      exact hin
    | true =>
      simp only [if_true]
      intro part hp
      rcases List.mem_map.mp hp with ⟨p0, hp0, rfl⟩
      have hcan := List.all_eq_true.mp hall p0 hp0
      cases p0 with
      | rect x y w h =>
        simp only [partCanMove, Bool.not_eq_true', Bool.or_eq_false_iff,
          decide_eq_false_iff_not, not_lt] at hcan
        simp only [translatePart, partInBounds]
        refine ⟨hcan.1.1.1, hcan.1.1.2, ?_, ?_⟩ <;> [linarith [hcan.1.2]; linarith [hcan.2]]
      | poly qs =>
        simp only [partCanMove, List.all_eq_true, Bool.not_eq_true',
          Bool.or_eq_false_iff, decide_eq_false_iff_not, not_lt] at hcan
        simp only [translatePart, partInBounds]
        intro q hq
        rcases List.mem_map.mp hq with ⟨q0, hq0, rfl⟩
        have h0 := hcan q0 hq0
        simp only [translatePoint, pointInBounds]
        exact ⟨h0.1.1.1, h0.1.2, h0.1.1.2, h0.2⟩
  · intro hW hH hpts p hp
    rcases List.mem_or_eq_of_mem_set hp with h | rfl
    · exact hpts p h
    · exact ⟨le_max_left 0 _, max_le hW (min_le_right _ _),
        le_max_left 0 _, max_le hH (min_le_right _ _)⟩
  · intro hW hH
    have h1 := min_le_left W H
    have h2 := min_le_right W H
    have h0 : 0 ≤ min W H := le_min hW hH
    simp only [newRegionPart, partInBounds, defaultRegionSize]
    refine ⟨by linarith, by linarith, by linarith, by linarith⟩
  · intro hW v
    exact ⟨le_max_left 0 _, max_le hW (min_le_right _ _)⟩

/-- Witness for the amended C7 at a concrete image, drag, vertex drag and
clamp. -/
theorem mutations_preserve_bounds_witness :
    (∀ part ∈ (bodyDragStep 100 100 ⟨1, [Part.rect 10 10 20 20]⟩
        ⟨0, 0⟩ ⟨5, 5⟩).1.parts, partInBounds 100 100 part) ∧
    (∀ p ∈ vertexDragStep 100 100 [⟨1, 1⟩] 0 ⟨200, -5⟩,
      pointInBounds 100 100 p) ∧
    partInBounds 100 100 (newRegionPart 100 100) ∧
    (0 ≤ clampCoord 100 250 ∧ clampCoord 100 250 ≤ 100) := by
  have h1 := mutations_preserve_bounds 100 100 ⟨1, [Part.rect 10 10 20 20]⟩
    ⟨0, 0⟩ ⟨5, 5⟩ [⟨1, 1⟩] 0
  have h2 := mutations_preserve_bounds 100 100 ⟨1, [Part.rect 10 10 20 20]⟩
    ⟨0, 0⟩ ⟨200, -5⟩ [⟨1, 1⟩] 0
  refine ⟨h1.1 ?_, h2.2.1 (by norm_num) (by norm_num) ?_,
    h1.2.2.1 (by norm_num) (by norm_num), h1.2.2.2 (by norm_num) 250⟩
  · intro part hp
    simp only [List.mem_singleton] at hp
    subst hp
    norm_num [partInBounds]
  · intro p hp
    simp only [List.mem_singleton] at hp
    subst hp
    norm_num [pointInBounds]

theorem processGo_eq (base : String) (i : ℕ) (rs : List Region) :
    processGo base i rs =
      ((rs.enumFrom i).filter fun p => regionKept p.2).map
        fun p => artifactName base p.1 := by
  induction rs generalizing i with
  | nil => rfl
  | cons r rest ih =>
    simp only [processGo, List.enumFrom_cons, List.filter_cons]
    cases hk : regionKept r <;> simp [hk, ih (i + 1)]

/-- **C9.** A `processRegions` run keeps exactly the regions whose bounding
box has positive width and height; the region at 0-based collection index
`i` contributes exactly one artifact named `{base}_region_{i+1}.png`, the
artifacts appear in region order, and the resulting list replaces the
previous processed-image list outright. -/
theorem processRegions_spec (prev : List String) (base : String)
    (rs : List Region) :
    processRegions base rs =
      ((rs.enum.filter fun p => regionKept p.2).map
        fun p => artifactName base p.1) ∧
    (rs ≠ [] → processRegionsRun prev base rs = processRegions base rs) := by
  constructor
  · exact processGo_eq base 0 rs
  · intro h
    rw [processRegionsRun, if_neg]
    simpa using h

/-- Witness for C9: with a previous artifact list present, a run over one
normal and one degenerate region replaces the list with exactly the kept
region's artifact, named from its collection index. -/
theorem processRegions_spec_witness :
    processRegionsRun ["old"] "img" procTestRegions =
      processRegions "img" procTestRegions ∧
    processRegions "img" procTestRegions = ["img_region_1.png"] := by
  refine ⟨(processRegions_spec ["old"] "img" procTestRegions).2
    (by simp [procTestRegions]), ?_⟩
  simp [processRegions, processGo, procTestRegions, regionKept, regionBox,
    partLoX, partHiX, partLoY, partHiY]
  rfl

theorem scanPart_isSome_of_bodyContains (fl : ModeFlags) (h2 : ℚ)
    (pos : Point) (part : Part) (hb : bodyContains pos part) :
    (scanPart fl h2 pos part).isSome := by
  cases part with
  | rect x y w h =>
    simp only [bodyContains] at hb
    simp only [scanPart]
    split
    · simp
    · rw [if_pos hb]
      simp
  | poly pts =>
    simp only [bodyContains] at hb
    simp only [scanPart]
    split
    · simp
    · rw [hb]
      simp

theorem scanParts_isSome (fl : ModeFlags) (h2 : ℚ) (pos : Point)
    (parts : List Part) (hb : ∃ part ∈ parts, bodyContains pos part) :
    ∀ j : ℕ, (scanParts fl h2 pos j parts).isSome := by
  induction parts with
  | nil =>
    rcases hb with ⟨p, hp, _⟩
    simp at hp
  | cons a rest ih =>
    intro j
    cases hsp : scanPart fl h2 pos a with
    | some f => simp [scanParts, hsp]
    | none =>
      simp only [scanParts, hsp]
      rcases hb with ⟨p, hp, hbp⟩
      rcases List.mem_cons.mp hp with rfl | hp2
      · have hs := scanPart_isSome_of_bodyContains fl h2 pos p hbp
        rw [hsp] at hs
        simp at hs
      · exact ih ⟨p, hp2, hbp⟩ (j + 1)

/-- **C3.** The classifier scans the collection back-to-front, parts in
order, first match wins: whenever the body of some part of the last (=
topmost) region contains the pointer, the returned hit's region is that last
region, whatever the mode flags and zoom; with two overlapping regions at
indices `i < j` this resolves the overlap to region `j`. (As a pure
function, repeated calls with equal arguments trivially agree.) -/
theorem getHitRegion_topmost (fl : ModeFlags) (zoom : ℚ) (rs : List Region)
    (r : Region) (pos : Point)
    (hb : ∃ part ∈ r.parts, bodyContains pos part) :
    (getHitRegion fl zoom (rs ++ [r]) pos).region = some r := by
  rw [getHitRegion, List.reverse_append]
  simp only [List.reverse_singleton, List.singleton_append]
  have hs := scanParts_isSome fl (HANDLE_SIZE / zoom / 2) pos r.parts hb 0
  cases hsp : scanParts fl (HANDLE_SIZE / zoom / 2) pos 0 r.parts with
  | none =>
    rw [hsp] at hs
    simp at hs
  | some jf =>
    have hsr : scanRegion fl (HANDLE_SIZE / zoom / 2) pos r =
        some ⟨some r, some jf.2.1, (jf.1 : ℤ), jf.2.2.vertex,
          jf.2.2.vertexIndex, some jf.2.2.mode, jf.2.2.cursor⟩ := by
      rw [scanRegion, hsp]
      rfl
    simp [scanRegionsRev, hsr]

/-- Witness for C3: with two overlapping rectangles and the pointer in the
overlap, the hit resolves to the later (topmost) region. -/
theorem getHitRegion_topmost_witness :
    (getHitRegion ⟨false, false, false, false⟩ 1 [hitRegionA, hitRegionB]
      ⟨30, 30⟩).region = some hitRegionB := by
  have h := getHitRegion_topmost ⟨false, false, false, false⟩ 1 [hitRegionA]
    hitRegionB ⟨30, 30⟩
    ⟨Part.rect 25 25 50 50, by simp [hitRegionB], by norm_num [bodyContains]⟩
  simpa using h

/-- Witness for the amended C2 at a concrete idle state with a stale
selection. -/
theorem toggle_modes_exclusive_witness :
    ((toggleSelectMode ⟨false, false, false, false, {7}, "default"⟩).isSelectMode = true ∧
      (toggleSelectMode ⟨false, false, false, false, {7}, "default"⟩).multiSelectRegions = ∅) ∧
    ((toggleDeletePointMode ⟨false, false, false, false, {7}, "default"⟩).isDeletePointMode = true ∧
      (toggleDeletePointMode ⟨false, false, false, false, {7}, "default"⟩).multiSelectRegions = {7}) := by
  have h := toggle_modes_exclusive ⟨false, false, false, false, {7}, "default"⟩
  exact ⟨⟨(h.1 rfl).1, (h.1 rfl).2.2.2.2⟩, ⟨(h.2.2.1 rfl).1, (h.2.2.1 rfl).2.2.2.2⟩⟩

end OctoCropper
